import Mathlib

/-!
Shallow embedding of the animation evaluation engine of the sprite-puppet-animator
repository (frontend/src/utils/animation.js, frontend/src/utils/frameCapture.js and
the keyframe operations of frontend/src/stores/useStore.js), together with theorems
settling the specification claims about it.

Numbers are modelled by `ℚ` (exact arithmetic).  JavaScript's `Math.pow(2, ·)`,
`Math.sin` and `Math.PI`, which occur only inside the generic branch of
`easeOutElastic`, are modelled by an abstract parameter structure `JsMath`; every
theorem below holds for every interpretation of those three symbols, since no claim
depends on the interior values of the elastic easing.
-/

namespace SpriteAnim

/-- Abstract interpretations of the transcendental functions used by
`easeOutElastic` (`Math.pow(2,·)`, `Math.sin`, `Math.PI`). -/
structure JsMath where
  pow2 : ℚ → ℚ
  sinq : ℚ → ℚ
  piq : ℚ

/-- JavaScript `v || d` on numbers: `0` (and only `0`, in exact arithmetic)
is falsy and replaced by the default. -/
def jsOr (v d : ℚ) : ℚ := if v = 0 then d else v

/-- JavaScript `s || d` on strings: the empty string is falsy. -/
def jsOrS (s d : String) : String := if s = "" then d else s

/-! ### Easing catalog (animation.js, `easingFunctions`) -/

def linear (t : ℚ) : ℚ := t

def easeIn (t : ℚ) : ℚ := t * t

def easeInCubic (t : ℚ) : ℚ := t * t * t

def easeInQuart (t : ℚ) : ℚ := t * t * t * t

def easeOut (t : ℚ) : ℚ := 1 - (1 - t) * (1 - t)

def easeOutCubic (t : ℚ) : ℚ := 1 - (1 - t) ^ 3

def easeOutQuart (t : ℚ) : ℚ := 1 - (1 - t) ^ 4

def easeInOut (t : ℚ) : ℚ :=
  if t < 1/2 then 2 * t * t else 1 - (-2 * t + 2) ^ 2 / 2

def easeInOutCubic (t : ℚ) : ℚ :=
  if t < 1/2 then 4 * t * t * t else 1 - (-2 * t + 2) ^ 3 / 2

def easeOutElastic (M : JsMath) (t : ℚ) : ℚ :=
  let c4 := 2 * M.piq / 3
  if t = 0 then 0 else if t = 1 then 1
  else M.pow2 (-10 * t) * M.sinq ((t * 10 - 3/4) * c4) + 1

def easeOutBounce (t : ℚ) : ℚ :=
  let n1 : ℚ := 7.5625
  let d1 : ℚ := 2.75
  if t < 1 / d1 then n1 * t * t
  else if t < 2 / d1 then n1 * (t - 1.5 / d1) * (t - 1.5 / d1) + 0.75
  else if t < 2.5 / d1 then n1 * (t - 2.25 / d1) * (t - 2.25 / d1) + 0.9375
  else n1 * (t - 2.625 / d1) * (t - 2.625 / d1) + 0.984375

/-- Key lookup in the `easingFunctions` object: `some` for a catalog name,
`none` for any other name. -/
def easingFunctions (M : JsMath) (name : String) : Option (ℚ → ℚ) :=
  if name = "linear" then some linear
  else if name = "easeIn" then some easeIn
  else if name = "easeInCubic" then some easeInCubic
  else if name = "easeInQuart" then some easeInQuart
  else if name = "easeOut" then some easeOut
  else if name = "easeOutCubic" then some easeOutCubic
  else if name = "easeOutQuart" then some easeOutQuart
  else if name = "easeInOut" then some easeInOut
  else if name = "easeInOutCubic" then some easeInOutCubic
  else if name = "easeOutElastic" then some (easeOutElastic M)
  else if name = "easeOutBounce" then some easeOutBounce
  else none

/-- The names present in the easing catalog. -/
def catalogNames : List String :=
  ["linear", "easeIn", "easeInCubic", "easeInQuart", "easeOut", "easeOutCubic",
   "easeOutQuart", "easeInOut", "easeInOutCubic", "easeOutElastic", "easeOutBounce"]

/-- animation.js `lerp(start, end, t, easing)`:
`easingFunctions[easing] || easingFunctions.linear`, applied to
`Math.max(0, Math.min(1, t))`, then a linear blend. -/
def lerp (M : JsMath) (start stop t : ℚ) (easing : String) : ℚ :=
  let easingFn := (easingFunctions M easing).getD linear
  let easedT := easingFn (max 0 (min 1 t))
  start + (stop - start) * easedT

/-! ### Data model (stores/useStore.js records, restricted to the fields the
animation engine reads; presentation-only fields such as names and colors are
omitted) -/

structure Keyframe where
  id : String
  jointId : String
  frameNumber : ℚ
  x : ℚ
  y : ℚ
  rotation : ℚ
  easing : String
deriving DecidableEq, Repr

structure Joint where
  id : String
  x : ℚ
  y : ℚ
  layerId : Option String
deriving DecidableEq, Repr

structure Transform where
  x : ℚ
  y : ℚ
  rotation : ℚ
  scaleX : ℚ
  scaleY : ℚ
deriving DecidableEq, Repr

structure Layer where
  id : String
  visible : Bool
  transform : Transform
deriving DecidableEq, Repr

structure JointPos where
  x : ℚ
  y : ℚ
  rotation : ℚ
deriving DecidableEq, Repr

/-- A pose: the joint-id-indexed map built by `getAllJointPositionsAtFrame`,
modelled as an association list. -/
def Pose := List (String × JointPos)

/-! ### Skeleton pose evaluator (animation.js, `getJointPositionAtFrame`) -/

/-- The comparator key order of `.sort((a, b) => a.frameNumber - b.frameNumber)`. -/
def kfLe (a b : Keyframe) : Prop := a.frameNumber ≤ b.frameNumber

instance : DecidableRel kfLe :=
  fun a b => inferInstanceAs (Decidable (a.frameNumber ≤ b.frameNumber))

instance : IsTotal Keyframe kfLe := ⟨fun a b => le_total a.frameNumber b.frameNumber⟩

instance : IsTrans Keyframe kfLe := ⟨fun _ _ _ h h' => le_trans h h'⟩

/-- JavaScript `Array.prototype.sort` with the `frameNumber` comparator: a stable
sort ascending by `frameNumber`.  Insertion sort is stable, hence extensionally
the sort the engine performs. -/
def sortKfs (l : List Keyframe) : List Keyframe := l.insertionSort kfLe

/-- The bracket-search loop of `getJointPositionAtFrame`: the first adjacent pair
`(prev, next)` with `prev.frameNumber <= currentFrame < next.frameNumber`. -/
def findBracket (f : ℚ) : List Keyframe → Option (Keyframe × Keyframe)
  | a :: b :: rest =>
      if a.frameNumber ≤ f ∧ f < b.frameNumber then some (a, b)
      else findBracket f (b :: rest)
  | _ => none

/-- The body of `getJointPositionAtFrame` after the per-joint track
`jointKeyframes` has been filtered and sorted. -/
def evalTrack (M : JsMath) (currentFrame : ℚ) (originalJoint : Joint) :
    List Keyframe → JointPos
  | [] => { x := originalJoint.x, y := originalJoint.y, rotation := 0 }
  | k0 :: rest =>
    if currentFrame ≤ k0.frameNumber then
      { x := k0.x, y := k0.y, rotation := jsOr k0.rotation 0 }
    else
      let lastKeyframe := (k0 :: rest).getLastD k0
      if currentFrame ≥ lastKeyframe.frameNumber then
        { x := lastKeyframe.x, y := lastKeyframe.y, rotation := jsOr lastKeyframe.rotation 0 }
      else
        -- the loop's initialisation `(jointKeyframes[0], jointKeyframes[1])` is
        -- only reachable as a result when no pair brackets; for a singleton
        -- track this branch is unreachable (the two clamps cover every frame)
        let pn := (findBracket currentFrame (k0 :: rest)).getD (k0, rest.headD k0)
        let prevKeyframe := pn.1
        let nextKeyframe := pn.2
        let frameDiff := nextKeyframe.frameNumber - prevKeyframe.frameNumber
        let progress :=
          if frameDiff > 0 then (currentFrame - prevKeyframe.frameNumber) / frameDiff else 0
        let easing := jsOrS nextKeyframe.easing "linear"
        { x := lerp M prevKeyframe.x nextKeyframe.x progress easing,
          y := lerp M prevKeyframe.y nextKeyframe.y progress easing,
          rotation :=
            lerp M (jsOr prevKeyframe.rotation 0) (jsOr nextKeyframe.rotation 0) progress easing }

def getJointPositionAtFrame (M : JsMath) (jointId : String) (currentFrame : ℚ)
    (keyframes : List Keyframe) (originalJoint : Joint) : JointPos :=
  evalTrack M currentFrame originalJoint
    (sortKfs (keyframes.filter (fun kf => kf.jointId == jointId)))

def getAllJointPositionsAtFrame (M : JsMath) (joints : List Joint) (currentFrame : ℚ)
    (keyframes : List Keyframe) : Pose :=
  joints.map (fun joint =>
    (joint.id, getJointPositionAtFrame M joint.id currentFrame keyframes joint))

/-! ### Layer transform resolver (animation.js, `getLayerTransformFromJoints`) -/

def getLayerTransformFromJoints (layer : Layer) (jointPositions : Pose)
    (joints : List Joint) : Transform :=
  match joints.find? (fun j => j.layerId == some layer.id) with
  | none =>
      { x := jsOr layer.transform.x 0, y := jsOr layer.transform.y 0,
        rotation := jsOr layer.transform.rotation 0,
        scaleX := jsOr layer.transform.scaleX 1, scaleY := jsOr layer.transform.scaleY 1 }
  | some linkedJoint =>
    match jointPositions.lookup linkedJoint.id with
    | none =>
        { x := jsOr layer.transform.x 0, y := jsOr layer.transform.y 0,
          rotation := jsOr layer.transform.rotation 0,
          scaleX := jsOr layer.transform.scaleX 1, scaleY := jsOr layer.transform.scaleY 1 }
    | some pos =>
      -- `joints.find(j => j.id === linkedJoint.id)` always succeeds, since
      -- `linkedJoint` itself is a member of `joints`
      let originalJoint := (joints.find? (fun j => j.id == linkedJoint.id)).getD linkedJoint
      let deltaX := pos.x - originalJoint.x
      let deltaY := pos.y - originalJoint.y
      { x := jsOr layer.transform.x 0 + deltaX,
        y := jsOr layer.transform.y 0 + deltaY,
        rotation := jsOr layer.transform.rotation 0 + jsOr pos.rotation 0,
        scaleX := jsOr layer.transform.scaleX 1,
        scaleY := jsOr layer.transform.scaleY 1 }

/-! ### Export bounding box (frameCapture.js, `calculateBoundingBox`) -/

structure Img where
  width : ℚ
  height : ℚ
deriving DecidableEq, Repr

structure Character where
  layers : List Layer
  joints : List Joint

structure BBox where
  x : ℚ
  y : ℚ
  width : ℚ
  height : ℚ
deriving DecidableEq, Repr

/-- The four running extrema of `calculateBoundingBox`; `none` models the
initial `±Infinity` (no finite contribution yet). -/
structure BBAcc where
  minX : Option ℚ
  minY : Option ℚ
  maxX : Option ℚ
  maxY : Option ℚ

/-- `Math.min` folded into an extremum that may still be `Infinity`. -/
def optMin (a : Option ℚ) (v : ℚ) : Option ℚ :=
  some (match a with | none => v | some m => min m v)

/-- `Math.max` folded into an extremum that may still be `-Infinity`. -/
def optMax (a : Option ℚ) (v : ℚ) : Option ℚ :=
  some (match a with | none => v | some m => max m v)

def bbLayerStep (imageCache : String → Option Img) (acc : BBAcc) (layer : Layer) : BBAcc :=
  if layer.visible = false then acc
  else
    match imageCache layer.id with
    | none => acc
    | some img =>
      let t := layer.transform
      let halfWidth := img.width / 2 * jsOr t.scaleX 1
      let halfHeight := img.height / 2 * jsOr t.scaleY 1
      { minX := optMin acc.minX (jsOr t.x 0 - halfWidth),
        minY := optMin acc.minY (jsOr t.y 0 - halfHeight),
        maxX := optMax acc.maxX (jsOr t.x 0 + halfWidth),
        maxY := optMax acc.maxY (jsOr t.y 0 + halfHeight) }

def bbJointStep (acc : BBAcc) (joint : Joint) : BBAcc :=
  { minX := optMin acc.minX (joint.x - 10),
    minY := optMin acc.minY (joint.y - 10),
    maxX := optMax acc.maxX (joint.x + 10),
    maxY := optMax acc.maxY (joint.y + 10) }

def calculateBoundingBox (character : Character) (imageCache : String → Option Img) : BBox :=
  let acc0 : BBAcc := { minX := none, minY := none, maxX := none, maxY := none }
  let acc1 := character.layers.foldl (bbLayerStep imageCache) acc0
  let acc2 := character.joints.foldl bbJointStep acc1
  -- `if (!isFinite(..))` fallbacks
  let minX := acc2.minX.getD 0
  let minY := acc2.minY.getD 0
  let maxX := acc2.maxX.getD 256
  let maxY := acc2.maxY.getD 256
  let padding : ℚ := 20
  { x := minX - padding, y := minY - padding,
    width := maxX - minX + padding * 2, height := maxY - minY + padding * 2 }

/-! ### Keyframe store operations (stores/useStore.js, `addKeyframe` /
`removeKeyframe`) -/

/-- The partial-update object passed to `addKeyframe` (`props`): the animatable
fields the editor supplies, each optional. -/
structure KfProps where
  x : Option ℚ
  y : Option ℚ
  rotation : Option ℚ
  easing : Option String
deriving DecidableEq, Repr

/-- The spread `{...existing, ...props}` of the update branch. -/
def applyProps (kf : Keyframe) (props : KfProps) : Keyframe :=
  { kf with
    x := props.x.getD kf.x, y := props.y.getD kf.y,
    rotation := props.rotation.getD kf.rotation,
    easing := props.easing.getD kf.easing }

/-- The key predicate of `findIndex`: same joint and same frame number. -/
def kfMatches (jointId : String) (frameNumber : ℚ) (kf : Keyframe) : Bool :=
  kf.jointId == jointId && kf.frameNumber == frameNumber

/-- Replacing the element at `findIndex`'s result by its props-patched copy:
the first matching keyframe is updated in place. -/
def updateFirstKf (jointId : String) (frameNumber : ℚ) (props : KfProps) :
    List Keyframe → List Keyframe
  | [] => []
  | kf :: rest =>
      if kfMatches jointId frameNumber kf then applyProps kf props :: rest
      else kf :: updateFirstKf jointId frameNumber props rest

/-- The fresh keyframe built in the append branch (`id: uuidv4(), ...`); the
double application of `props` (`x: props.x || 0, ..., ...props`) nets to
"props field when present, else the default". -/
def mkNewKf (newId jointId : String) (frameNumber : ℚ) (props : KfProps) : Keyframe :=
  { id := newId, jointId := jointId, frameNumber := frameNumber,
    x := props.x.getD 0, y := props.y.getD 0, rotation := props.rotation.getD 0,
    easing := props.easing.getD "linear" }

/-- `addKeyframe(jointId, frameNumber, props)` acting on the keyframe list:
update the existing keyframe at the coordinate when one exists, otherwise
append a fresh one; then re-sort by frame number. -/
def addKeyframe (jointId : String) (frameNumber : ℚ) (props : KfProps) (newId : String)
    (kfs : List Keyframe) : List Keyframe :=
  if kfs.any (kfMatches jointId frameNumber) then
    sortKfs (updateFirstKf jointId frameNumber props kfs)
  else
    sortKfs (kfs ++ [mkNewKf newId jointId frameNumber props])

/-- `removeKeyframe(keyframeId)` acting on the keyframe list. -/
def removeKeyframe (keyframeId : String) (kfs : List Keyframe) : List Keyframe :=
  kfs.filter (fun kf => kf.id != keyframeId)

/-- Two keyframes occupy distinct `(jointId, frameNumber)` coordinates. -/
def kfNoDup (a b : Keyframe) : Prop :=
  ¬(a.jointId = b.jointId ∧ a.frameNumber = b.frameNumber)

instance : DecidableRel kfNoDup :=
  fun a b =>
    inferInstanceAs (Decidable ¬(a.jointId = b.jointId ∧ a.frameNumber = b.frameNumber))

/-- The keyframe-list invariant of the data model: sorted ascending by
`frameNumber`, and at most one keyframe per `(jointId, frameNumber)` pair. -/
def KfInvariant (kfs : List Keyframe) : Prop :=
  kfs.Pairwise kfLe ∧ kfs.Pairwise kfNoDup

/-! ### Concrete fixtures for witnesses and counterexamples -/

/-- A trivial interpretation of the transcendental symbols; no statement below
evaluates the interior of the elastic easing, so the choice is irrelevant. -/
def mkJs : JsMath := { pow2 := fun _ => 0, sinq := fun _ => 0, piq := 0 }

/-- The spec's joint `J1`: rest position `(0, 0)`, driving layer `"L"`. -/
def wJoint1 : Joint := { id := "J1", x := 0, y := 0, layerId := some "L" }

/-- An unanimated joint with rest position `(3, 4)`. -/
def wJoint2 : Joint := { id := "J2", x := 3, y := 4, layerId := none }

/-- Keyframe `{frame 0, x 0}` of the spec's concrete scenario. -/
def wKf0 : Keyframe :=
  { id := "a", jointId := "J1", frameNumber := 0, x := 0, y := 0, rotation := 0,
    easing := "linear" }

/-- Keyframe `{frame 10, x 100, easing easeIn}` of the spec's concrete scenario. -/
def wKf10 : Keyframe :=
  { id := "b", jointId := "J1", frameNumber := 10, x := 100, y := 0, rotation := 0,
    easing := "easeIn" }

/-- A keyframe of a second joint, at frame 4. -/
def wKf4 : Keyframe :=
  { id := "c", jointId := "J2", frameNumber := 4, x := 7, y := 8, rotation := 9,
    easing := "easeOut" }

/-- The spec's layer `L`: rest transform `{x 20, y 0, rotation 0, scale 1}`,
bound to joint `J1` through the joint's `layerId`. -/
def wLayer : Layer := { id := "L", visible := true, transform := ⟨20, 0, 0, 1, 1⟩ }

/-- A layer whose rest `scaleX` is `0` (a falsy rest scale). -/
def wLayerZeroScale : Layer :=
  { id := "L", visible := true, transform := ⟨20, 0, 0, 0, 1⟩ }

/-- The frame-5 pose of the spec's scenario: `J1` displaced by `(+50, +0)`. -/
def wPose : Pose := [("J1", ⟨50, 0, 0⟩)]

/-! ### Helper lemmas -/

theorem jsOr_zero (v : ℚ) : jsOr v 0 = v := by
  unfold jsOr; split <;> simp_all

theorem jsOrS_of_ne {s : String} (d : String) (h : ¬s = "") : jsOrS s d = s := if_neg h

theorem easingFunctions_linear (M : JsMath) : easingFunctions M "linear" = some linear := by
  unfold easingFunctions; rw [if_pos rfl]

theorem easingFunctions_easeIn (M : JsMath) : easingFunctions M "easeIn" = some easeIn := by
  unfold easingFunctions; rw [if_neg (by decide), if_pos rfl]

theorem easingFunctions_easeInOut (M : JsMath) :
    easingFunctions M "easeInOut" = some easeInOut := by
  unfold easingFunctions
  rw [if_neg (by decide), if_neg (by decide), if_neg (by decide), if_neg (by decide),
    if_neg (by decide), if_neg (by decide), if_neg (by decide), if_pos rfl]

theorem easingFunctions_empty (M : JsMath) : easingFunctions M "" = none := by
  unfold easingFunctions
  rw [if_neg (by decide), if_neg (by decide), if_neg (by decide), if_neg (by decide),
    if_neg (by decide), if_neg (by decide), if_neg (by decide), if_neg (by decide),
    if_neg (by decide), if_neg (by decide), if_neg (by decide)]

/-- Every easing selected by name — catalog member or the linear fallback —
maps `0` to `0`. -/
theorem easingAt_zero (M : JsMath) (name : String) :
    ((easingFunctions M name).getD linear) 0 = 0 := by
  unfold easingFunctions
  repeat' split
  all_goals
    norm_num [linear, easeIn, easeInCubic, easeInQuart, easeOut, easeOutCubic, easeOutQuart,
      easeInOut, easeInOutCubic, easeOutElastic, easeOutBounce]

/-- Every easing selected by name — catalog member or the linear fallback —
maps `1` to `1`. -/
theorem easingAt_one (M : JsMath) (name : String) :
    ((easingFunctions M name).getD linear) 1 = 1 := by
  unfold easingFunctions
  repeat' split
  all_goals
    norm_num [linear, easeIn, easeInCubic, easeInQuart, easeOut, easeOutCubic, easeOutQuart,
      easeInOut, easeInOutCubic, easeOutElastic, easeOutBounce]

theorem lerp_at_zero (M : JsMath) (s e : ℚ) (name : String) : lerp M s e 0 name = s := by
  simp only [lerp]
  rw [show max 0 (min 1 (0:ℚ)) = 0 by norm_num, easingAt_zero, mul_zero, add_zero]

theorem lerp_at_one (M : JsMath) (s e : ℚ) (name : String) : lerp M s e 1 name = e := by
  simp only [lerp]
  rw [show max 0 (min 1 (1:ℚ)) = 1 by norm_num, easingAt_one, mul_one]
  ring

/-- The `nextKeyframe.easing || 'linear'` coercion never changes the lerp:
the missing-name fallback and the `"linear"` entry agree. -/
theorem lerp_jsOrS (M : JsMath) (s e t : ℚ) (name : String) :
    lerp M s e t (jsOrS name "linear") = lerp M s e t name := by
  unfold jsOrS
  split
  · subst name
    simp only [lerp]
    rw [easingFunctions_linear, easingFunctions_empty]
    simp
  · rfl

/-! ### Sorted-track lemmas -/

def kfLt (a b : Keyframe) : Prop := a.frameNumber < b.frameNumber

theorem sortKfs_perm (l : List Keyframe) : List.Perm (sortKfs l) l :=
  List.perm_insertionSort kfLe l

theorem sortKfs_sorted (l : List Keyframe) : (sortKfs l).Pairwise kfLe :=
  List.sorted_insertionSort kfLe l

/-- When the frame numbers of a keyframe list are pairwise distinct, its sorted
form is strictly increasing. -/
theorem sortKfs_strict {l : List Keyframe}
    (hdist : l.Pairwise (fun a b => a.frameNumber ≠ b.frameNumber)) :
    (sortKfs l).Pairwise kfLt := by
  have hdist' : (sortKfs l).Pairwise (fun a b => a.frameNumber ≠ b.frameNumber) :=
    ((sortKfs_perm l).pairwise_iff (fun h => Ne.symm h)).mpr hdist
  exact ((sortKfs_sorted l).and hdist').imp (fun h => lt_of_le_of_ne h.1 h.2)

theorem kfLt_pairwise_le {l : List Keyframe} (h : l.Pairwise kfLt) : l.Pairwise kfLe :=
  h.imp (fun h' => le_of_lt h')

/-- In a list sorted (weakly) by frame number, every member's frame number is
bounded by the last element's. -/
theorem frame_le_getLastD : ∀ {l : List Keyframe} {a : Keyframe} (d : Keyframe),
    l.Pairwise kfLe → a ∈ l → a.frameNumber ≤ (l.getLastD d).frameNumber
  | [], _, _, _, hmem => absurd hmem (List.not_mem_nil _)
  | b :: l, a, d, hp, hmem => by
    rcases List.mem_cons.mp hmem with rfl | hmem'
    · rcases l with _ | ⟨c, l'⟩
      · simp [List.getLastD]
      · have hbc : kfLe a c := (List.pairwise_cons.mp hp).1 c (List.mem_cons_self _ _)
        have := frame_le_getLastD (l := c :: l') (a := c) a
          (List.pairwise_cons.mp hp).2 (List.mem_cons_self _ _)
        calc a.frameNumber ≤ c.frameNumber := hbc
          _ ≤ ((c :: l').getLastD a).frameNumber := this
        |>.trans (by rw [List.getLastD_cons])
    · have := frame_le_getLastD (l := l) (a := a) b (List.pairwise_cons.mp hp).2 hmem'
      rw [List.getLastD_cons]
      exact this

/-- On a strictly increasing track, the bracket-search loop returns exactly the
adjacent pair around the query frame. -/
theorem findBracket_append (f : ℚ) :
    ∀ (l₁ : List Keyframe) {l₂ : List Keyframe} {prev next : Keyframe},
      (l₁ ++ prev :: next :: l₂).Pairwise kfLt →
      prev.frameNumber ≤ f → f < next.frameNumber →
      findBracket f (l₁ ++ prev :: next :: l₂) = some (prev, next)
  | [], l₂, prev, next, _, hlo, hhi => by
    simp only [List.nil_append]
    rw [findBracket, if_pos ⟨hlo, hhi⟩]
  | a :: l₁, l₂, prev, next, hs, hlo, hhi => by
    rw [List.cons_append] at hs
    have hs' : (l₁ ++ prev :: next :: l₂).Pairwise kfLt := hs.of_cons
    rcases l₁ with _ | ⟨a', l₁'⟩
    · simp only [List.cons_append, List.nil_append]
      rw [findBracket, if_neg (by exact fun h => absurd h.2 (not_lt.mpr hlo))]
      simp only [List.nil_append] at hs'
      rw [findBracket, if_pos ⟨hlo, hhi⟩]
    · have ha' : kfLt a' prev := by
        rw [List.cons_append] at hs'
        refine (List.pairwise_cons.mp hs').1 prev ?_
        exact List.mem_append_right _ (List.mem_cons_self _ _)
      simp only [List.cons_append]
      rw [findBracket, if_neg (by
        rintro ⟨-, hfa'⟩
        exact absurd (lt_trans hfa' ha') (not_lt.mpr hlo))]
      exact findBracket_append f (a' :: l₁') hs' hlo hhi

theorem evalTrack_nil (M : JsMath) (f : ℚ) (joint : Joint) :
    evalTrack M f joint [] = { x := joint.x, y := joint.y, rotation := 0 } := rfl

/-- Pre-roll clamp branch. -/
theorem evalTrack_first (M : JsMath) (f : ℚ) (joint : Joint) (k0 : Keyframe)
    (rest : List Keyframe) (h : f ≤ k0.frameNumber) :
    evalTrack M f joint (k0 :: rest) =
      { x := k0.x, y := k0.y, rotation := jsOr k0.rotation 0 } := by
  simp only [evalTrack]
  rw [if_pos h]

/-- Post-roll clamp branch. -/
theorem evalTrack_last (M : JsMath) (f : ℚ) (joint : Joint) (k0 : Keyframe)
    (rest : List Keyframe) (h0 : ¬f ≤ k0.frameNumber)
    (h1 : f ≥ ((k0 :: rest).getLastD k0).frameNumber) :
    evalTrack M f joint (k0 :: rest) =
      { x := ((k0 :: rest).getLastD k0).x, y := ((k0 :: rest).getLastD k0).y,
        rotation := jsOr ((k0 :: rest).getLastD k0).rotation 0 } := by
  simp only [evalTrack]
  rw [if_neg h0, if_pos h1]

/-- Interpolation branch: on a strictly increasing track whose first frame is
strictly before `f` and which brackets `f` at the adjacent pair
`(prev, next)`, the track evaluates to the three independent lerps with
progress `(f - prev.frameNumber) / (next.frameNumber - prev.frameNumber)` and
the arrival keyframe's easing. -/
theorem evalTrack_bracket (M : JsMath) (f : ℚ) (joint : Joint)
    (l₁ l₂ : List Keyframe) (prev next : Keyframe)
    (hs : (l₁ ++ prev :: next :: l₂).Pairwise kfLt)
    (hlo : prev.frameNumber ≤ f) (hhi : f < next.frameNumber)
    (hfirst : ((l₁ ++ prev :: next :: l₂).headD prev).frameNumber < f) :
    evalTrack M f joint (l₁ ++ prev :: next :: l₂) =
      { x := lerp M prev.x next.x
               ((f - prev.frameNumber) / (next.frameNumber - prev.frameNumber))
               (jsOrS next.easing "linear"),
        y := lerp M prev.y next.y
               ((f - prev.frameNumber) / (next.frameNumber - prev.frameNumber))
               (jsOrS next.easing "linear"),
        rotation := lerp M (jsOr prev.rotation 0) (jsOr next.rotation 0)
               ((f - prev.frameNumber) / (next.frameNumber - prev.frameNumber))
               (jsOrS next.easing "linear") } := by
  have hnext_mem : next ∈ l₁ ++ prev :: next :: l₂ :=
    List.mem_append_right _ (List.mem_cons_of_mem _ (List.mem_cons_self _ _))
  have hbr := findBracket_append f l₁ hs hlo hhi
  rcases hk : l₁ ++ prev :: next :: l₂ with _ | ⟨k0, rest⟩
  · exact absurd hk (by cases l₁ <;> simp)
  · rw [hk] at hbr hnext_mem hs hfirst
    have hg0 : ¬f ≤ k0.frameNumber := by
      simp only [List.headD_cons] at hfirst
      exact not_le.mpr hfirst
    have hg1 : ¬f ≥ ((k0 :: rest).getLastD k0).frameNumber := by
      have : next.frameNumber ≤ ((k0 :: rest).getLastD k0).frameNumber :=
        frame_le_getLastD k0 (kfLt_pairwise_le hs) hnext_mem
      exact not_le.mpr (lt_of_lt_of_le hhi this)
    have hdiff : next.frameNumber - prev.frameNumber > 0 :=
      sub_pos.mpr (lt_of_le_of_lt hlo hhi)
    simp only [evalTrack]
    rw [if_neg hg0, if_neg hg1, hbr]
    simp only [Option.getD_some]
    rw [if_pos hdiff]

/-- The default-carrying last element of a nonempty list is a member of it. -/
theorem getLastD_cons_mem : ∀ (l : List Keyframe) (a d : Keyframe),
    (a :: l).getLastD d ∈ a :: l
  | [], a, d => by simp
  | b :: l, a, d => by
    rw [List.getLastD_cons]
    exact List.mem_cons_of_mem a (getLastD_cons_mem l b a)

/-! ### Claim theorems -/

/-- C4: for every joint that has zero keyframes in the supplied keyframe set,
`poseAt` (per joint, `getJointPositionAtFrame`) returns exactly that joint's
rest position `(x, y)` with rotation `0`, for every frame number. -/
theorem C4_pose_rest_when_no_keyframes (M : JsMath) (jointId : String) (f : ℚ)
    (kfs : List Keyframe) (joint : Joint)
    (h : ∀ kf ∈ kfs, kf.jointId ≠ jointId) :
    getJointPositionAtFrame M jointId f kfs joint =
      { x := joint.x, y := joint.y, rotation := 0 } := by
  have hfil : kfs.filter (fun kf => kf.jointId == jointId) = [] :=
    List.filter_eq_nil_iff.mpr (fun kf hmem => by simpa using h kf hmem)
  unfold getJointPositionAtFrame
  rw [hfil]
  rfl

/-- Witness for C4 at a concrete unanimated joint. -/
theorem C4_pose_rest_when_no_keyframes_witness :
    getJointPositionAtFrame mkJs "J2" 7 [wKf0, wKf10] wJoint2 =
      { x := 3, y := 4, rotation := 0 } := by
  have h := C4_pose_rest_when_no_keyframes mkJs "J2" 7 [wKf0, wKf10] wJoint2
    (by decide)
  rw [h]
  rfl

/-- C3: pre/post-roll clamping — for every joint with at least one keyframe,
`poseAt` at any frame at or before the first keyframe's frame returns the first
keyframe's values verbatim, at any frame at or after the last keyframe's frame
returns the last keyframe's values verbatim, and hence `poseAt` before the
first keyframe equals `poseAt` at the first keyframe's frame. -/
theorem C3_pose_clamps (M : JsMath) (jointId : String) (kfs : List Keyframe)
    (joint : Joint) (first last : Keyframe)
    (hdist : (kfs.filter (fun kf => kf.jointId == jointId)).Pairwise
      (fun a b => a.frameNumber ≠ b.frameNumber))
    (hhead : (sortKfs (kfs.filter (fun kf => kf.jointId == jointId))).head? = some first)
    (hlast : (sortKfs (kfs.filter (fun kf => kf.jointId == jointId))).getLast? = some last) :
    (∀ f, f ≤ first.frameNumber →
      getJointPositionAtFrame M jointId f kfs joint =
        { x := first.x, y := first.y, rotation := first.rotation }) ∧
    (∀ f, last.frameNumber ≤ f →
      getJointPositionAtFrame M jointId f kfs joint =
        { x := last.x, y := last.y, rotation := last.rotation }) ∧
    (∀ f, f ≤ first.frameNumber →
      getJointPositionAtFrame M jointId f kfs joint =
        getJointPositionAtFrame M jointId first.frameNumber kfs joint) := by
  have hgj : ∀ f, getJointPositionAtFrame M jointId f kfs joint =
      evalTrack M f joint (sortKfs (kfs.filter (fun kf => kf.jointId == jointId))) :=
    fun _ => rfl
  rcases htr : sortKfs (kfs.filter (fun kf => kf.jointId == jointId)) with _ | ⟨k0, rest⟩
  · rw [htr] at hhead; simp at hhead
  · rw [htr] at hhead
    have hk0 : first = k0 := by
      have := hhead; simp only [List.head?_cons, Option.some.injEq] at this
      exact this.symm
    subst hk0
    have hstrict : (first :: rest).Pairwise kfLt := htr ▸ sortKfs_strict hdist
    rw [htr] at hlast
    have hlastD : (first :: rest).getLastD first = last := by
      rw [List.getLastD_eq_getLast? first _, hlast]; rfl
    have hlast_one : last.frameNumber ≤ first.frameNumber → last = first := by
      intro hle
      rcases rest with _ | ⟨r, rest'⟩
      · simpa using hlast.symm
      · exfalso
        have hmem : last ∈ r :: rest' := by
          have := getLastD_cons_mem rest' r first
          rw [← List.getLastD_cons (a := first), hlastD] at this
          exact this
        have : kfLt first last := (List.pairwise_cons.mp hstrict).1 last hmem
        exact absurd (lt_of_lt_of_le this hle) (lt_irrefl _)
    have part1 : ∀ f, f ≤ first.frameNumber →
        getJointPositionAtFrame M jointId f kfs joint =
          { x := first.x, y := first.y, rotation := first.rotation } := by
      intro f hf
      rw [hgj f, htr, evalTrack_first M f joint first rest hf, jsOr_zero]
    refine ⟨part1, ?_, ?_⟩
    · intro f hf2
      by_cases hf1 : f ≤ first.frameNumber
      · have hlf : last = first := hlast_one (le_trans hf2 hf1)
        rw [part1 f hf1, hlf]
      · rw [hgj f, htr,
          evalTrack_last M f joint first rest hf1 (by rw [hlastD]; exact hf2),
          hlastD, jsOr_zero]
    · intro f hf1
      rw [part1 f hf1, part1 first.frameNumber (le_refl _)]

/-- Witness for C3 on the spec's two-keyframe track: frame −3 clamps to the
first keyframe, frame 99 clamps to the last. -/
theorem C3_pose_clamps_witness :
    getJointPositionAtFrame mkJs "J1" (-3) [wKf0, wKf10] wJoint1 =
        { x := 0, y := 0, rotation := 0 } ∧
    getJointPositionAtFrame mkJs "J1" 99 [wKf0, wKf10] wJoint1 =
        { x := 100, y := 0, rotation := 0 } := by
  have h := C3_pose_clamps mkJs "J1" [wKf0, wKf10] wJoint1 wKf0 wKf10
    (by decide) (by decide) (by decide)
  exact ⟨h.1 (-3) (by decide), h.2.1 99 (by decide)⟩

/-- C2: for every joint with at least one keyframe and every keyframe `kf` of
that joint, `poseAt` evaluated exactly at `kf.frameNumber` returns exactly
`kf`'s `(x, y, rotation)` — also at interior keyframes, where the bracketing
branch runs with progress `0` under an arbitrary easing. -/
theorem C2_pose_exact_at_keyframes (M : JsMath) (jointId : String)
    (kfs : List Keyframe) (joint : Joint) (kf : Keyframe)
    (hdist : (kfs.filter (fun kf => kf.jointId == jointId)).Pairwise
      (fun a b => a.frameNumber ≠ b.frameNumber))
    (hmem : kf ∈ kfs) (hj : kf.jointId = jointId) :
    getJointPositionAtFrame M jointId kf.frameNumber kfs joint =
      { x := kf.x, y := kf.y, rotation := kf.rotation } := by
  have hgj : ∀ f, getJointPositionAtFrame M jointId f kfs joint =
      evalTrack M f joint (sortKfs (kfs.filter (fun kf => kf.jointId == jointId))) :=
    fun _ => rfl
  have hmemf : kf ∈ kfs.filter (fun kf => kf.jointId == jointId) :=
    List.mem_filter.mpr ⟨hmem, by simp [hj]⟩
  have hmemt : kf ∈ sortKfs (kfs.filter (fun kf => kf.jointId == jointId)) :=
    (sortKfs_perm _).mem_iff.mpr hmemf
  have hstrict := sortKfs_strict hdist
  obtain ⟨u, v, huv⟩ := List.append_of_mem hmemt
  rw [huv] at hstrict
  rw [hgj kf.frameNumber, huv]
  rcases hv : v with _ | ⟨b, v'⟩
  · subst hv
    rcases hu : u with _ | ⟨a, u'⟩
    · subst hu
      rw [List.nil_append, evalTrack_first M kf.frameNumber joint kf [] (le_refl _),
        jsOr_zero]
    · subst hu
      have hafirst : kfLt a kf := by
        refine (List.pairwise_cons.mp (by rwa [List.cons_append] at hstrict)).1 kf ?_
        exact List.mem_append_right _ (List.mem_cons_self _ _)
      have hlastD : ((a :: u') ++ [kf]).getLastD a = kf := List.getLastD_concat a kf _
      rw [List.cons_append]
      rw [List.cons_append] at hlastD
      rw [evalTrack_last M kf.frameNumber joint a (u' ++ [kf])
        (not_le.mpr hafirst) (by rw [hlastD]), hlastD, jsOr_zero]
  · subst hv
    have hnext : kfLt kf b := by
      have := (List.pairwise_append.mp hstrict).2.1
      exact (List.pairwise_cons.mp this).1 b (List.mem_cons_self _ _)
    rcases hu : u with _ | ⟨a, u'⟩
    · subst hu
      rw [List.nil_append, evalTrack_first M kf.frameNumber joint kf (b :: v') (le_refl _),
        jsOr_zero]
    · subst hu
      have hafirst : kfLt a kf := by
        refine (List.pairwise_cons.mp (by rwa [List.cons_append] at hstrict)).1 kf ?_
        exact List.mem_append_right _ (List.mem_cons_self _ _)
      have hhead : (((a :: u') ++ kf :: b :: v').headD kf).frameNumber < kf.frameNumber := by
        rw [List.cons_append, List.headD_cons]
        exact hafirst
      rw [evalTrack_bracket M kf.frameNumber joint (a :: u') v' kf b hstrict
        (le_refl _) hnext hhead]
      rw [sub_self, zero_div, lerp_at_zero, lerp_at_zero, lerp_at_zero, jsOr_zero]

/-- Witness for C2 at the interior keyframe of a three-keyframe track: frame 10
is bracketed with progress 0 and returns keyframe `wKf10`'s values exactly. -/
theorem C2_pose_exact_at_keyframes_witness :
    getJointPositionAtFrame mkJs "J1"
        (10 : ℚ) [wKf0, wKf10,
          { id := "d", jointId := "J1", frameNumber := 20, x := -5, y := 6, rotation := 90,
            easing := "easeOutBounce" }] wJoint1 =
      { x := 100, y := 0, rotation := 0 } := by
  have h := C2_pose_exact_at_keyframes mkJs "J1"
    [wKf0, wKf10,
      { id := "d", jointId := "J1", frameNumber := 20, x := -5, y := 6, rotation := 90,
        easing := "easeOutBounce" }] wJoint1 wKf10
    (by decide) (by decide) (by decide)
  exact h

/-- C1: when the sorted keyframe track of a joint strictly brackets the query
frame between the consecutive keyframes `prev` and `next`
(`prev.frameNumber <= f < next.frameNumber` with `f` strictly after the first
keyframe's frame), `poseAt` interpolates `x`, `y` and `rotation` independently
with progress `(f - prev.frameNumber) / (next.frameNumber - prev.frameNumber)`
using `next.easing` — the arrival keyframe's easing. -/
theorem C1_pose_bracket_interpolates (M : JsMath) (jointId : String) (f : ℚ)
    (kfs : List Keyframe) (joint : Joint) (l₁ l₂ : List Keyframe)
    (prev next : Keyframe)
    (hdist : (kfs.filter (fun kf => kf.jointId == jointId)).Pairwise
      (fun a b => a.frameNumber ≠ b.frameNumber))
    (htrack : sortKfs (kfs.filter (fun kf => kf.jointId == jointId)) =
      l₁ ++ prev :: next :: l₂)
    (hlo : prev.frameNumber ≤ f) (hhi : f < next.frameNumber)
    (hfirst : ((l₁ ++ prev :: next :: l₂).headD prev).frameNumber < f) :
    getJointPositionAtFrame M jointId f kfs joint =
      { x := lerp M prev.x next.x
               ((f - prev.frameNumber) / (next.frameNumber - prev.frameNumber))
               next.easing,
        y := lerp M prev.y next.y
               ((f - prev.frameNumber) / (next.frameNumber - prev.frameNumber))
               next.easing,
        rotation := lerp M prev.rotation next.rotation
               ((f - prev.frameNumber) / (next.frameNumber - prev.frameNumber))
               next.easing } := by
  have hstrict := sortKfs_strict hdist
  rw [htrack] at hstrict
  have hgj : getJointPositionAtFrame M jointId f kfs joint =
      evalTrack M f joint (sortKfs (kfs.filter (fun kf => kf.jointId == jointId))) := rfl
  rw [hgj, htrack, evalTrack_bracket M f joint l₁ l₂ prev next hstrict hlo hhi hfirst,
    lerp_jsOrS, lerp_jsOrS, lerp_jsOrS, jsOr_zero, jsOr_zero]

/-- Witness for C1, the spec's concrete scenario: keyframes `{frame 0, x 0}` and
`{frame 10, x 100, easing easeIn}` give `x = 25` at frame 5 (progress `1/2`,
`easeIn(1/2) = 1/4`). -/
theorem C1_pose_bracket_interpolates_witness :
    getJointPositionAtFrame mkJs "J1" 5 [wKf10, wKf0] wJoint1 =
      { x := 25, y := 0, rotation := 0 } := by
  have h := C1_pose_bracket_interpolates mkJs "J1" 5 [wKf10, wKf0] wJoint1 [] []
    wKf0 wKf10 (by decide) (by decide) (by decide) (by decide) (by decide)
  rw [h]
  have : ((5 : ℚ) - wKf0.frameNumber) / (wKf10.frameNumber - wKf0.frameNumber) = 1/2 := by
    norm_num [wKf0, wKf10]
  rw [this]
  show ({ x := lerp mkJs 0 100 (1/2) "easeIn", y := lerp mkJs 0 0 (1/2) "easeIn",
          rotation := lerp mkJs 0 0 (1/2) "easeIn" } : JointPos) = _
  simp only [lerp, easingFunctions_easeIn, Option.getD_some]
  norm_num [easeIn, show max 0 (min 1 ((1:ℚ)/2)) = 1/2 by norm_num]

/-- An easing name outside the catalog selects no entry. -/
theorem easingFunctions_eq_none (M : JsMath) (name : String)
    (h : name ∉ catalogNames) : easingFunctions M name = none := by
  simp only [catalogNames, List.mem_cons, List.not_mem_nil, or_false, not_or] at h
  unfold easingFunctions
  rw [if_neg h.1, if_neg h.2.1, if_neg h.2.2.1, if_neg h.2.2.2.1, if_neg h.2.2.2.2.1,
    if_neg h.2.2.2.2.2.1, if_neg h.2.2.2.2.2.2.1, if_neg h.2.2.2.2.2.2.2.1,
    if_neg h.2.2.2.2.2.2.2.2.1, if_neg h.2.2.2.2.2.2.2.2.2.1,
    if_neg h.2.2.2.2.2.2.2.2.2.2]

/-- C5: `lerp(start, end, t, name)` equals
`start + (end - start) * f(clamp(t, 0, 1))` with `f` the catalog easing of
`name` (the linear identity for an unknown name); consequently every `t >= 1`
collapses to the value at `t = 1` and every `t <= 0` to the value at `t = 0`. -/
theorem C5_lerp_clamps_and_falls_back (M : JsMath) (s e t : ℚ) (name : String) :
    lerp M s e t name =
      s + (e - s) * ((easingFunctions M name).getD linear) (max 0 (min 1 t)) ∧
    (1 ≤ t → lerp M s e t name = lerp M s e 1 name) ∧
    (t ≤ 0 → lerp M s e t name = lerp M s e 0 name) ∧
    (name ∉ catalogNames → lerp M s e t name = s + (e - s) * max 0 (min 1 t)) := by
  refine ⟨rfl, ?_, ?_, ?_⟩
  · intro h
    simp only [lerp]
    rw [min_eq_left h, min_self]
  · intro h
    simp only [lerp]
    rw [min_eq_right (le_trans h zero_le_one), max_eq_left h,
      show min (1:ℚ) 0 = 0 from min_eq_right zero_le_one, max_self]
  · intro h
    simp only [lerp, easingFunctions_eq_none M name h, Option.getD_none, linear]

/-- Witness for C5 at `t = 3` (collapse to `t = 1`), `t = -2` (collapse to
`t = 0`) and the unknown name `"bounce"` (linear fallback). -/
theorem C5_lerp_clamps_and_falls_back_witness :
    lerp mkJs 4 10 3 "easeIn" = lerp mkJs 4 10 1 "easeIn" ∧
    lerp mkJs 4 10 (-2) "easeIn" = lerp mkJs 4 10 0 "easeIn" ∧
    lerp mkJs 4 10 (1/2) "bounce" = 4 + (10 - 4) * max 0 (min 1 (1/2)) := by
  refine ⟨(C5_lerp_clamps_and_falls_back mkJs 4 10 3 "easeIn").2.1 (by norm_num),
    (C5_lerp_clamps_and_falls_back mkJs 4 10 (-2) "easeIn").2.2.1 (by norm_num),
    (C5_lerp_clamps_and_falls_back mkJs 4 10 (1/2) "bounce").2.2.2 (by decide)⟩

/-- C10: every easing in the catalog fixes `0` and `1` exactly, and hence
`lerp(start, end, 0, name) = start` and `lerp(start, end, 1, name) = end` for
every catalog name. -/
theorem C10_easing_fixed_points (M : JsMath) :
    ∀ name ∈ catalogNames,
      ((easingFunctions M name).getD linear) 0 = 0 ∧
      ((easingFunctions M name).getD linear) 1 = 1 ∧
      ∀ s e : ℚ, lerp M s e 0 name = s ∧ lerp M s e 1 name = e := by
  intro name _
  exact ⟨easingAt_zero M name, easingAt_one M name,
    fun s e => ⟨lerp_at_zero M s e name, lerp_at_one M s e name⟩⟩

/-- Witness for C10 at the catalog name `"easeOutBounce"`. -/
theorem C10_easing_fixed_points_witness :
    ((easingFunctions mkJs "easeOutBounce").getD linear) 0 = 0 ∧
    ((easingFunctions mkJs "easeOutBounce").getD linear) 1 = 1 ∧
    lerp mkJs 3 7 0 "easeOutBounce" = 3 ∧ lerp mkJs 3 7 1 "easeOutBounce" = 7 := by
  have h := C10_easing_fixed_points mkJs "easeOutBounce" (by decide)
  exact ⟨h.1, h.2.1, (h.2.2 3 7).1, (h.2.2 3 7).2⟩

/-- Looking a member joint up by its own id returns that joint when ids are
unique. -/
theorem find?_id_self : ∀ (joints : List Joint) (j : Joint),
    joints.Pairwise (fun a b => a.id ≠ b.id) → j ∈ joints →
    joints.find? (fun j' => j'.id == j.id) = some j
  | [], j, _, hmem => absurd hmem (List.not_mem_nil _)
  | a :: rest, j, hids, hmem => by
    rcases List.mem_cons.mp hmem with rfl | hmem'
    · rw [List.find?_cons_of_pos _ (by simp)]
    · have hne : a.id ≠ j.id := (List.pairwise_cons.mp hids).1 j hmem'
      rw [List.find?_cons_of_neg _ (by simp [hne])]
      exact find?_id_self rest j (List.pairwise_cons.mp hids).2 hmem'

/-- C6 (amended): for a layer bound to a joint present in the pose, the
resolved transform is additive on position and rotation — position is the
layer's rest position plus the joint's displacement from its rest position,
rotation is the rest rotation plus the pose rotation — while `scaleX` and
`scaleY` are the rest scale unchanged except that a rest scale component of
`0` comes back as `1` (JavaScript `|| 1` default). -/
theorem C6_resolve_additive (layer : Layer) (pose : Pose) (joints : List Joint)
    (linkedJoint : Joint) (pos : JointPos)
    (hids : joints.Pairwise (fun a b => a.id ≠ b.id))
    (hfind : joints.find? (fun j => j.layerId == some layer.id) = some linkedJoint)
    (hpose : List.lookup linkedJoint.id pose = some pos) :
    getLayerTransformFromJoints layer pose joints =
      { x := layer.transform.x + (pos.x - linkedJoint.x),
        y := layer.transform.y + (pos.y - linkedJoint.y),
        rotation := layer.transform.rotation + pos.rotation,
        scaleX := jsOr layer.transform.scaleX 1,
        scaleY := jsOr layer.transform.scaleY 1 } := by
  have hmem : linkedJoint ∈ joints := List.mem_of_find?_eq_some hfind
  rw [getLayerTransformFromJoints, hfind]
  dsimp only
  rw [hpose]
  dsimp only
  rw [find?_id_self joints linkedJoint hids hmem]
  dsimp only [Option.getD_some]
  rw [jsOr_zero, jsOr_zero, jsOr_zero, jsOr_zero]

/-- Counterexample to C6 as stated: a bound layer whose rest `scaleX` is `0`
resolves to `scaleX = 1`, not to its rest scale unchanged. -/
theorem C6_resolve_scale_counterexample :
    ¬((getLayerTransformFromJoints wLayerZeroScale wPose [wJoint1]).scaleX =
      wLayerZeroScale.transform.scaleX) := by
  decide

/-- Witness for C6, the spec's concrete scenario: layer rest
`{x 20, y 0, rotation 0, scale 1}` bound to `J1`, pose displaced `(+50, +0)`,
resolves to `{x 70, y 0, rotation 0, scaleX 1, scaleY 1}`. -/
theorem C6_resolve_additive_witness :
    getLayerTransformFromJoints wLayer wPose [wJoint1] =
      { x := 70, y := 0, rotation := 0, scaleX := 1, scaleY := 1 } := by
  have h := C6_resolve_additive wLayer wPose [wJoint1] wJoint1 ⟨50, 0, 0⟩
    (by decide) (by decide) (by decide)
  rw [h]
  norm_num [wLayer, wJoint1, jsOr]

/-- C7 (amended): for a layer with no bound joint, or whose bound joint's id
is absent from the pose, the resolver returns the layer's rest `x`, `y` and
`rotation` unchanged and its rest scale unchanged except that a rest scale
component of `0` comes back as `1` (JavaScript `|| 1` default). -/
theorem C7_resolve_unbound_rest (layer : Layer) (pose : Pose) (joints : List Joint)
    (h : joints.find? (fun j => j.layerId == some layer.id) = none ∨
      ∃ linkedJoint, joints.find? (fun j => j.layerId == some layer.id) = some linkedJoint ∧
        List.lookup linkedJoint.id pose = none) :
    getLayerTransformFromJoints layer pose joints =
      { x := layer.transform.x, y := layer.transform.y,
        rotation := layer.transform.rotation,
        scaleX := jsOr layer.transform.scaleX 1,
        scaleY := jsOr layer.transform.scaleY 1 } := by
  rcases h with hnone | ⟨linkedJoint, hfind, hlook⟩
  · rw [getLayerTransformFromJoints, hnone]
    dsimp only
    rw [jsOr_zero, jsOr_zero, jsOr_zero]
  · rw [getLayerTransformFromJoints, hfind]
    dsimp only
    rw [hlook]
    dsimp only
    rw [jsOr_zero, jsOr_zero, jsOr_zero]

/-- Counterexample to C7 as stated: an unbound layer whose rest `scaleX` is
`0` does not get its rest transform back unchanged — the resolver returns
`scaleX = 1`. -/
theorem C7_resolve_unbound_counterexample :
    ¬(getLayerTransformFromJoints wLayerZeroScale [] [] =
      wLayerZeroScale.transform) := by
  decide

/-- Witness for C7 on an unbound layer with nonzero rest scale: the rest
transform comes back unchanged. -/
theorem C7_resolve_unbound_rest_witness :
    getLayerTransformFromJoints wLayer [] [] = wLayer.transform := by
  have h := C7_resolve_unbound_rest wLayer [] [] (Or.inl (by decide))
  rw [h]
  norm_num [wLayer, jsOr]

/-- A layer contributes nothing to the bounding-box extrema when it is
invisible or its image is not in the cache. -/
theorem foldl_bbLayerStep_skip (imageCache : String → Option Img) :
    ∀ (ls : List Layer) (acc : BBAcc),
      (∀ l ∈ ls, l.visible = false ∨ imageCache l.id = none) →
      ls.foldl (bbLayerStep imageCache) acc = acc
  | [], _, _ => rfl
  | l :: ls, acc, h => by
    have hstep : bbLayerStep imageCache acc l = acc := by
      rcases h l (List.mem_cons_self _ _) with hv | hc
      · simp [bbLayerStep, hv]
      · by_cases hv2 : l.visible = false
        · simp [bbLayerStep, hv2]
        · simp [bbLayerStep, hv2, hc]
    rw [List.foldl_cons, hstep]
    exact foldl_bbLayerStep_skip imageCache ls acc
      (fun l' hl' => h l' (List.mem_cons_of_mem _ hl'))

/-- C9: for a character with no joints and no visible layer with a loaded
image (in particular, no layers and no joints at all), the export bounding box
falls back to the fixed default extent
`{x := -20, y := -20, width := 296, height := 296}`. -/
theorem C9_bbox_default (character : Character) (imageCache : String → Option Img)
    (hj : character.joints = [])
    (hl : ∀ l ∈ character.layers, l.visible = false ∨ imageCache l.id = none) :
    calculateBoundingBox character imageCache =
      { x := -20, y := -20, width := 296, height := 296 } := by
  simp only [calculateBoundingBox]
  rw [hj, foldl_bbLayerStep_skip imageCache character.layers _ hl]
  simp only [List.foldl_nil, Option.getD_none]
  norm_num

/-- Witness for C9: a character whose only layer has no cached image and no
joints, and the empty character, both yield the default box. -/
theorem C9_bbox_default_witness :
    calculateBoundingBox { layers := [wLayer], joints := [] } (fun _ => none) =
      { x := -20, y := -20, width := 296, height := 296 } ∧
    calculateBoundingBox { layers := [], joints := [] } (fun _ => none) =
      { x := -20, y := -20, width := 296, height := 296 } := by
  refine ⟨C9_bbox_default _ _ rfl ?_, C9_bbox_default _ _ rfl ?_⟩
  · intro l hl
    exact Or.inr rfl
  · intro l hl
    simp at hl

theorem kfNoDup_symm {a b : Keyframe} (h : kfNoDup a b) : kfNoDup b a :=
  fun hc => h ⟨hc.1.symm, hc.2.symm⟩

theorem applyProps_jointId (kf : Keyframe) (props : KfProps) :
    (applyProps kf props).jointId = kf.jointId := rfl

theorem applyProps_frameNumber (kf : Keyframe) (props : KfProps) :
    (applyProps kf props).frameNumber = kf.frameNumber := rfl

theorem updateFirstKf_length (jointId : String) (fn : ℚ) (props : KfProps) :
    ∀ l : List Keyframe, (updateFirstKf jointId fn props l).length = l.length
  | [] => rfl
  | kf :: rest => by
    rw [updateFirstKf]
    split
    · rfl
    · simp [updateFirstKf_length jointId fn props rest]

/-- Every element of the updated list shares its coordinate with an element of
the original list. -/
theorem updateFirstKf_mem_key (jointId : String) (fn : ℚ) (props : KfProps) :
    ∀ (l : List Keyframe) (b : Keyframe), b ∈ updateFirstKf jointId fn props l →
      ∃ b₀ ∈ l, b.jointId = b₀.jointId ∧ b.frameNumber = b₀.frameNumber
  | [], b, hmem => absurd hmem (List.not_mem_nil _)
  | kf :: rest, b, hmem => by
    rw [updateFirstKf] at hmem
    split at hmem
    · rcases List.mem_cons.mp hmem with rfl | hmem'
      · exact ⟨kf, List.mem_cons_self _ _, rfl, rfl⟩
      · exact ⟨b, List.mem_cons_of_mem _ hmem', rfl, rfl⟩
    · rcases List.mem_cons.mp hmem with rfl | hmem'
      · exact ⟨b, List.mem_cons_self _ _, rfl, rfl⟩
      · obtain ⟨b₀, hb₀, hkey⟩ := updateFirstKf_mem_key jointId fn props rest b hmem'
        exact ⟨b₀, List.mem_cons_of_mem _ hb₀, hkey⟩

/-- Updating the first matching keyframe in place preserves coordinate
uniqueness. -/
theorem updateFirstKf_pairwise (jointId : String) (fn : ℚ) (props : KfProps) :
    ∀ l : List Keyframe, l.Pairwise kfNoDup →
      (updateFirstKf jointId fn props l).Pairwise kfNoDup
  | [], _ => List.Pairwise.nil
  | kf :: rest, h => by
    obtain ⟨hhead, htail⟩ := List.pairwise_cons.mp h
    rw [updateFirstKf]
    split
    · refine List.pairwise_cons.mpr ⟨?_, htail⟩
      intro b hb
      have := hhead b hb
      unfold kfNoDup at this ⊢
      rwa [applyProps_jointId, applyProps_frameNumber]
    · refine List.pairwise_cons.mpr ⟨?_, updateFirstKf_pairwise jointId fn props rest htail⟩
      intro b hb
      obtain ⟨b₀, hb₀, hj, hf⟩ := updateFirstKf_mem_key jointId fn props rest b hb
      have := hhead b₀ hb₀
      unfold kfNoDup at this ⊢
      rw [hj, hf]
      exact this

theorem sortKfs_pairwise_noDup {l : List Keyframe} (h : l.Pairwise kfNoDup) :
    (sortKfs l).Pairwise kfNoDup :=
  ((sortKfs_perm l).pairwise_iff (fun h' => kfNoDup_symm h')).mpr h

/-- C8: the keyframe-list invariant — at most one keyframe per
`(jointId, frameNumber)` and ascending frame order — is preserved by
`addKeyframe` and `removeKeyframe`; an occupied coordinate is overwritten in
place (same length), a free coordinate gets exactly one new keyframe, and
`removeKeyframe` only removes (result is a sublist). -/
theorem C8_keyframe_invariant_preserved (kfs : List Keyframe) (jointId : String)
    (frameNumber : ℚ) (props : KfProps) (newId keyframeId : String)
    (hinv : KfInvariant kfs) :
    KfInvariant (addKeyframe jointId frameNumber props newId kfs) ∧
    KfInvariant (removeKeyframe keyframeId kfs) ∧
    (kfs.any (kfMatches jointId frameNumber) = true →
      (addKeyframe jointId frameNumber props newId kfs).length = kfs.length) ∧
    (kfs.any (kfMatches jointId frameNumber) = false →
      (addKeyframe jointId frameNumber props newId kfs).length = kfs.length + 1) ∧
    (removeKeyframe keyframeId kfs).Sublist kfs := by
  obtain ⟨hsorted, hnodup⟩ := hinv
  refine ⟨⟨?_, ?_⟩, ⟨?_, ?_⟩, ?_, ?_, List.filter_sublist _⟩
  · exact by
      unfold addKeyframe
      split <;> exact sortKfs_sorted _
  · unfold addKeyframe
    split
    · exact sortKfs_pairwise_noDup (updateFirstKf_pairwise jointId frameNumber props kfs hnodup)
    · refine sortKfs_pairwise_noDup (List.pairwise_append.mpr ⟨hnodup, ?_, ?_⟩)
      · simp
      · intro a ha b hb
        have hb' : b = mkNewKf newId jointId frameNumber props := by simpa using hb
        subst hb'
        have hnomatch : ¬(kfMatches jointId frameNumber a = true) := by
          intro hmatch
          rename_i hany
          exact hany (List.any_eq_true.mpr ⟨a, ha, hmatch⟩)
        unfold kfMatches at hnomatch
        unfold kfNoDup mkNewKf
        intro hc
        exact hnomatch (by simp [hc.1, hc.2])
  · exact hsorted.sublist (List.filter_sublist _)
  · exact hnodup.sublist (List.filter_sublist _)
  · intro hocc
    unfold addKeyframe
    rw [if_pos hocc, (sortKfs_perm _).length_eq, updateFirstKf_length]
  · intro hfree
    unfold addKeyframe
    rw [if_neg (by simp [hfree]), (sortKfs_perm _).length_eq]
    simp

/-- Witness for C8 on the spec's two-keyframe list: adding at the occupied
coordinate `(J1, 10)` keeps length 2, adding at the free coordinate `(J1, 5)`
makes length 3, and both results and the removal result satisfy the
invariant. -/
theorem C8_keyframe_invariant_preserved_witness :
    KfInvariant (addKeyframe "J1" 5 ⟨some 7, none, none, none⟩ "new" [wKf0, wKf10]) ∧
    KfInvariant (removeKeyframe "a" [wKf0, wKf10]) ∧
    (addKeyframe "J1" 10 ⟨some 7, none, none, none⟩ "new" [wKf0, wKf10]).length = 2 ∧
    (addKeyframe "J1" 5 ⟨some 7, none, none, none⟩ "new" [wKf0, wKf10]).length = 3 := by
  have h5 := C8_keyframe_invariant_preserved [wKf0, wKf10] "J1" 5
    ⟨some 7, none, none, none⟩ "new" "a" (by constructor <;> decide)
  have h10 := C8_keyframe_invariant_preserved [wKf0, wKf10] "J1" 10
    ⟨some 7, none, none, none⟩ "new" "a" (by constructor <;> decide)
  exact ⟨h5.1, h5.2.1, h10.2.2.1 (by decide), h5.2.2.2.1 (by decide)⟩

end SpriteAnim
